import Mathlib

/-!
Shallow embedding of the schema-inference core of `moisturizer`
(`src/moisturizer/models.py`): the type-mapping tables, the field
descriptor user type, the descriptor model with its drift detection, and
the inferred-model factory.  Python dicts are modelled as association
lists with first-occurrence lookup and replace-or-append insertion,
which matches CPython's insertion-ordered dict semantics.  Operations
that can raise are modelled with `Option` (`none` = exception); the
storage side effects (persisting a descriptor row, synchronizing or
dropping a table) are recorded as an explicit effect trace.
-/

namespace Moisturizer

/-- Python dict lookup: first (unique, for a real dict) matching key. -/
def dictLookup {α β : Type} [DecidableEq α] : List (α × β) → α → Option β
  | [], _ => none
  | (k, v) :: rest, k0 => if k = k0 then some v else dictLookup rest k0

/-- Python `key in dict`. -/
def dictContains {α β : Type} [DecidableEq α] (d : List (α × β)) (k : α) : Bool :=
  (dictLookup d k).isSome

/-- Python `d[k] = v`: replace in place if present, else append. -/
def dictInsert {α β : Type} [DecidableEq α] : List (α × β) → α → β → List (α × β)
  | [], k0, v0 => [(k0, v0)]
  | (k, v) :: rest, k0, v0 =>
    if k = k0 then (k0, v0) :: rest else (k, v) :: dictInsert rest k0 v0

/-- Python `d.update(other)`: insert each entry of `other` in order. -/
def dictUpdate {α β : Type} [DecidableEq α] (d upd : List (α × β)) : List (α × β) :=
  upd.foldl (fun acc kv => dictInsert acc kv.1 kv.2) d

/-- A real Python dict has no duplicate keys. -/
def nodupKeys {α β : Type} (d : List (α × β)) : Prop :=
  (d.map Prod.fst).Nodup

instance {α β : Type} [DecidableEq α] (d : List (α × β)) : Decidable (nodupKeys d) := by
  unfold nodupKeys
  infer_instance

/-- The Python runtime types appearing in `NATIVE_JSONSCHEMA_TYPE_MAPPER`. -/
inductive PyType : Type
  | pyBool
  | pyInt
  | pyFloat
  | pyStr
  | pyDict
  | pyList
  deriving DecidableEq, Repr

/-- Native (JSON-shaped) Python values handled by the inference engine.
Payloads are kept only where they exist in Python and are never
inspected by the schema code. -/
inductive NativeValue : Type
  | vBool (b : Bool)
  | vInt (n : Int)
  | vFloat
  | vStr (s : String)
  | vDict
  | vList
  | vNone
  deriving DecidableEq, Repr

/-- Python `type(value)`, restricted to the mapped types (`None` has no
entry in the tables, so its type is irrelevant and modelled as absent). -/
def typeOf : NativeValue → Option PyType
  | .vBool _ => some .pyBool
  | .vInt _ => some .pyInt
  | .vFloat => some .pyFloat
  | .vStr _ => some .pyStr
  | .vDict => some .pyDict
  | .vList => some .pyList
  | .vNone => none

/-- Python `isinstance(value, t)`.  `bool` is a subclass of `int` in
Python, so booleans are also instances of `int`. -/
def isinstance : NativeValue → PyType → Bool
  | .vBool _, .pyBool => true
  | .vBool _, .pyInt => true
  | .vInt _, .pyInt => true
  | .vFloat, .pyFloat => true
  | .vStr _, .pyStr => true
  | .vDict, .pyDict => true
  | .vList, .pyList => true
  | _, _ => false

/-- A value is supported when its type has an entry in the native table. -/
def isSupported (v : NativeValue) : Bool :=
  (typeOf v).isSome

/-- `NATIVE_JSONSCHEMA_TYPE_MAPPER`, in source order (dicts preserve
insertion order, and `from_value` relies on `bool` preceding `int`). -/
def NATIVE_JSONSCHEMA_TYPE_MAPPER : List (PyType × (String × Option String)) :=
  [(.pyBool, ("boolean", none)),
   (.pyInt, ("integer", none)),
   (.pyFloat, ("number", none)),
   (.pyStr, ("string", none)),
   (.pyDict, ("object", none)),
   (.pyList, ("array", none))]

/-- The cqlengine column classes used as values of
`JSONSCHEMA_CQL_TYPE_MAPPER`. -/
inductive ColumnKind : Type
  | text
  | decimal
  | bigint
  | boolean
  | datetime
  | uuid
  | floatCol
  | doubleCol
  | mapDescriptor
  deriving DecidableEq, Repr

/-- A value of the CQL mapper: either a plain column class, the
`('null', None)` lambda returning `None`, or the
`('object', 'descriptor')` lambda building the descriptor map column. -/
inductive CqlCtor : Type
  | col (k : ColumnKind)
  | nullCol
  | mapCol
  deriving DecidableEq, Repr

/-- `JSONSCHEMA_CQL_TYPE_MAPPER`, in source order. -/
def JSONSCHEMA_CQL_TYPE_MAPPER : List ((String × Option String) × CqlCtor) :=
  [(("string", none), .col .text),
   (("number", none), .col .decimal),
   (("integer", none), .col .bigint),
   (("boolean", none), .col .boolean),
   (("null", none), .nullCol),
   (("string", some "date-time"), .col .datetime),
   (("string", some "uuid"), .col .uuid),
   (("number", some "float"), .col .floatCol),
   (("number", some "double"), .col .doubleCol),
   (("object", some "descriptor"), .mapCol)]

/-- `CQL_JSONSCHEMA_TYPE_MAPPER = {v: k for v, k in JSONSCHEMA_CQL_TYPE_MAPPER}`:
iterating a dict yields its KEYS, each a `(type, format)` pair that the
comprehension unpacks as `v, k`.  The result therefore maps the
jsonschema type string to a format string, later entries overwriting
earlier ones, exactly as the dict comprehension does. -/
def CQL_JSONSCHEMA_TYPE_MAPPER : List (String × Option String) :=
  JSONSCHEMA_CQL_TYPE_MAPPER.foldl (fun acc kv => dictInsert acc kv.1.1 kv.1.2) []

/-- `DEFAULT_CQL_TYPE = columns.Text`. -/
def DEFAULT_CQL_TYPE : ColumnKind := .text

/-- A constructed cqlengine column instance, as produced by calling a
column class with keyword flags.  `hasDefault` records whether a default
callable was supplied (`as_column` always passes `default=None`). -/
structure ColumnSpec : Type where
  kind : ColumnKind
  primary_key : Bool
  partition_key : Bool
  index : Bool
  required : Bool
  hasDefault : Bool
  deriving DecidableEq, Repr

/-- Calling a CQL mapper value with the flag keywords: plain column
classes build a column, the `('null', None)` lambda returns `None`
(no column), the descriptor lambda builds the map column. -/
def applyCtor : CqlCtor → Bool → Bool → Bool → Bool → Option ColumnSpec
  | .col k, pk, pak, idx, req => some ⟨k, pk, pak, idx, req, false⟩
  | .nullCol, _, _, _, _ => none
  | .mapCol, pk, pak, idx, req => some ⟨.mapDescriptor, pk, pak, idx, req, false⟩

/-- `DescriptorFieldType`: the user type holding one field's schema
metadata.  Defaults mirror the column declarations (`format ''`, flags
`False`, `index True`). -/
structure DescriptorFieldType : Type where
  type : String
  format : String := ""
  primary_key : Bool := false
  partition_key : Bool := false
  required : Bool := false
  index : Bool := true
  deriving DecidableEq, Repr

/-- `DescriptorFieldType.from_value`: scan the native mapper in order,
first `isinstance` match wins; a `None` format is stored as `''`.
Returns nothing when no native type matches. -/
def fromValueGo : List (PyType × (String × Option String)) → NativeValue →
    Option DescriptorFieldType
  | [], _ => none
  | (native, field) :: rest, value =>
    if isinstance value native then
      some { type := field.1, format := field.2.getD "" }
    else fromValueGo rest value

def DescriptorFieldType.from_value (value : NativeValue) : Option DescriptorFieldType :=
  fromValueGo NATIVE_JSONSCHEMA_TYPE_MAPPER value

/-- `DescriptorFieldType.as_column`: decode `''` back to an absent
format, look the pair up in the CQL mapper with `columns.Text` as the
default, and call the result with the carried flags and `default=None`.
The `('null', None)` entry yields no column (`none`). -/
def DescriptorFieldType.as_column (f : DescriptorFieldType) : Option ColumnSpec :=
  let format0 : Option String := if f.format = "" then none else some f.format
  let field := (dictLookup JSONSCHEMA_CQL_TYPE_MAPPER (f.type, format0)).getD (.col DEFAULT_CQL_TYPE)
  applyCtor field f.primary_key f.partition_key f.index f.required

/-- Storage side effects issued by the descriptor operations. -/
inductive Effect : Type
  | syncTable
  | save
  | dropTable
  deriving DecidableEq, Repr

/-- The two column-valued attributes statically declared on
`InferredModel` (`id = columns.Text(primary_key=True, default=uuid1)`
and `last_modified = columns.DateTime(index=True, default=now)`).
The skip check `getattr(cls, name, None)` in `from_descriptor` is
truthy on every attribute of the class — these two columns, the
classmethods `add_column` and `from_descriptor`, and everything
inherited from cqlengine's `Model` (`save`, `delete`, `get`, ...), a
set not enumerable from this repository.  The factory is therefore
parametrized by the truthy-attribute set and its theorems quantify over
every set containing these two names; this list is the instantiation
used by the `DescriptorModel` plumbing, which under-approximates the
full truthy set at method-named fields. -/
def baseAttrs : List String := ["id", "last_modified"]

def idColumn : ColumnSpec :=
  ⟨.text, true, false, false, false, true⟩

def lastModifiedColumn : ColumnSpec :=
  ⟨.datetime, false, false, true, false, true⟩

/-- The columns `InferredModel` starts from before `add_column` calls. -/
def baseColumns : List (String × ColumnSpec) :=
  [("id", idColumn), ("last_modified", lastModifiedColumn)]

/-- One iteration of `InferredModel.from_descriptor`'s loop,
parametrized by `attrs`, the set of names on which
`getattr(cls, name, None)` is truthy: skip such a name, else call
`field.as_column()` and `add_column`.  `none` models the
`AttributeError` raised when the stored field is Python `None`
(`None.as_column`) or when `as_column` itself returned `None`
(`None.column_name = name` inside `add_column`). -/
def from_descriptor_step (attrs : List String) (cols : List (String × ColumnSpec))
    (name : String) (f0 : Option DescriptorFieldType) :
    Option (List (String × ColumnSpec)) :=
  if name ∈ attrs then some cols
  else
    match f0 with
    | none => none
    | some f =>
      match f.as_column with
      | none => none
      | some c => some (dictInsert cols name c)

/-- `InferredModel.from_descriptor`'s loop over the properties dict,
for a class whose truthy-attribute names are `attrs`. -/
def from_descriptor_go (attrs : List String) :
    List (String × Option DescriptorFieldType) →
    List (String × ColumnSpec) → Option (List (String × ColumnSpec))
  | [], cols => some cols
  | (name, f0) :: rest, cols =>
    match from_descriptor_step attrs cols name f0 with
    | none => none
    | some cols2 => from_descriptor_go attrs rest cols2

/-- `InferredModel.from_descriptor`: synthesize the record type's column
set from a descriptor's properties, at the plumbing's instantiation of
the attribute set. -/
def InferredModel.from_descriptor (props : List (String × Option DescriptorFieldType)) :
    Option (List (String × ColumnSpec)) :=
  from_descriptor_go baseAttrs props baseColumns

/-- `DescriptorModel`: id plus the map column `properties`.  A map
value of `none` models a Python `None` stored in the dict. -/
structure DescriptorModel : Type where
  id : String
  properties : List (String × Option DescriptorFieldType)
  deriving DecidableEq, Repr

/-- The default `id` property injected by `set_default_properties`. -/
def defaultIdField : DescriptorFieldType :=
  { type := "string", format := "", primary_key := true, partition_key := true }

/-- The default `last_modified` property injected by
`set_default_properties`. -/
def defaultLastModifiedField : DescriptorFieldType :=
  { type := "string", format := "date-time", index := true }

/-- `DescriptorModel.set_default_properties`: `properties.update(**{...})`
with the two default fields, overwriting caller entries of those names. -/
def DescriptorModel.set_default_properties (d : DescriptorModel) : DescriptorModel :=
  { d with properties :=
      (dictUpdate d.properties
        [("id", some defaultIdField), ("last_modified", some defaultLastModifiedField)]) }

/-- `DescriptorModel.schema`: `{k: v.as_column() for k, v in properties}`.
Raises (`none`) when a stored value is Python `None`. -/
def schema_go : List (String × Option DescriptorFieldType) →
    Option (List (String × Option ColumnSpec))
  | [] => some []
  | (_, none) :: _ => none
  | (k, some f) :: rest => (schema_go rest).map (fun r => (k, f.as_column) :: r)

def DescriptorModel.schema (d : DescriptorModel) : Option (List (String × Option ColumnSpec)) :=
  schema_go d.properties

/-- `DescriptorModel.model`: the record type synthesized on demand. -/
def DescriptorModel.model (d : DescriptorModel) : Option (List (String × ColumnSpec)) :=
  InferredModel.from_descriptor d.properties

/-- `DescriptorModel.save`: `sync_table(self.model)` then the base-class
persist.  Raises when synthesizing `self.model` raises. -/
def DescriptorModel.save (d : DescriptorModel) : Option (List Effect) :=
  match d.model with
  | none => none
  | some _ => some [.syncTable, .save]

/-- The in-memory instance built by `create`: `cls(*args, **kwargs)`
(whose `__init__` already runs `set_default_properties`) followed by the
explicit `created.set_default_properties()` call. -/
def DescriptorModel.createdOf (id0 : String)
    (props : List (String × Option DescriptorFieldType)) : DescriptorModel :=
  DescriptorModel.set_default_properties
    (DescriptorModel.set_default_properties ⟨id0, props⟩)

/-- `DescriptorModel.create`: build the instance, `save`, then
`sync_table(created.model)`; returns the created descriptor and the
effect trace, or `none` when a step raised. -/
def DescriptorModel.create (id0 : String) (props : List (String × Option DescriptorFieldType)) :
    Option (DescriptorModel × List Effect) :=
  match (DescriptorModel.createdOf id0 props).save with
  | none => none
  | some effs =>
    match (DescriptorModel.createdOf id0 props).model with
    | none => none
    | some _ => some (DescriptorModel.createdOf id0 props, effs ++ [.syncTable])

/-- The comprehension in `infer_schema_change`: keys of the object not
yet in `properties`, each mapped through `from_value` — keeping the key
even when `from_value` returned `None`. -/
def DescriptorModel.new_fields_of (d : DescriptorModel)
    (object0 : List (String × NativeValue)) : List (String × Option DescriptorFieldType) :=
  (object0.filter (fun kv => !(dictContains d.properties kv.1))).map
    (fun kv => (kv.1, DescriptorFieldType.from_value kv.2))

/-- The in-memory state after `infer_schema_change`: `properties` is
mutated by `update(**new_fields)` before any fallible call, so this is
the caller-visible state even when the call later raises. -/
def DescriptorModel.infer_state (d : DescriptorModel)
    (object0 : List (String × NativeValue)) : DescriptorModel :=
  let new_fields := d.new_fields_of object0
  if new_fields.isEmpty then d
  else { d with properties := dictUpdate d.properties new_fields }

/-- `DescriptorModel.infer_schema_change`: returns
`some (result, state, effects)` where `result` is `none` for the early
`return` (no new fields) and `some new_fields` otherwise; the outer
`none` models an exception escaping the call. -/
def DescriptorModel.infer_schema_change (d : DescriptorModel)
    (object0 : List (String × NativeValue)) :
    Option (Option (List (String × Option DescriptorFieldType)) × DescriptorModel × List Effect) :=
  if (d.new_fields_of object0).isEmpty then some (none, d, [])
  else
    match (d.infer_state object0).save with
    | none => none
    | some effs =>
      match (d.infer_state object0).model with
      | none => none
      | some _ =>
        some (some (d.new_fields_of object0), d.infer_state object0, effs ++ [.syncTable])

/-- `DescriptorModel.delete`: drop the table, then the base delete. -/
def DescriptorModel.delete (d : DescriptorModel) : Option (List Effect) :=
  match d.model with
  | none => none
  | some _ => some [.dropTable]

/-- Descriptor states reachable through `create` followed by
`infer_schema_change` calls on objects satisfying `P` (creation payloads
are Python dicts, hence have no duplicate keys). -/
inductive ReachableVia (P : List (String × NativeValue) → Prop) : DescriptorModel → Prop
  | created (id0 : String) (props : List (String × Option DescriptorFieldType))
      (d : DescriptorModel) (effs : List Effect) (hnd : nodupKeys props)
      (h : DescriptorModel.create id0 props = some (d, effs)) : ReachableVia P d
  | inferred (d : DescriptorModel) (object0 : List (String × NativeValue))
      (hP : P object0) (h : ReachableVia P d) : ReachableVia P (d.infer_state object0)

/-! Helper lemmas about the dict model. -/

theorem dictLookup_dictInsert_self {α β : Type} [DecidableEq α]
    (d : List (α × β)) (k : α) (v : β) :
    dictLookup (dictInsert d k v) k = some v := by
  induction d with
  | nil => simp [dictInsert, dictLookup]
  | cons hd tl ih =>
    obtain ⟨a, b⟩ := hd
    by_cases h : a = k
    · simp [dictInsert, h, dictLookup]
    · simp [dictInsert, h, dictLookup, ih]

theorem dictLookup_dictInsert_ne {α β : Type} [DecidableEq α]
    (d : List (α × β)) (k k0 : α) (v : β) (hne : k ≠ k0) :
    dictLookup (dictInsert d k v) k0 = dictLookup d k0 := by
  induction d with
  | nil => simp [dictInsert, dictLookup, hne]
  | cons hd tl ih =>
    obtain ⟨a, b⟩ := hd
    by_cases h : a = k
    · subst h
      simp [dictInsert, dictLookup, hne]
    · simp only [dictInsert, if_neg h, dictLookup]
      by_cases h0 : a = k0
      · simp [h0]
      · simp [h0, ih]

theorem mem_dictInsert {α β : Type} [DecidableEq α]
    {d : List (α × β)} {k : α} {v : β} {x : α × β}
    (h : x ∈ dictInsert d k v) : x ∈ d ∨ x = (k, v) := by
  induction d with
  | nil =>
    simp [dictInsert] at h
    exact Or.inr h
  | cons hd tl ih =>
    obtain ⟨a, b⟩ := hd
    by_cases ha : a = k
    · simp only [dictInsert, if_pos ha, List.mem_cons] at h
      rcases h with h | h
      · exact Or.inr h
      · exact Or.inl (List.mem_cons_of_mem _ h)
    · simp only [dictInsert, if_neg ha, List.mem_cons] at h
      rcases h with h | h
      · exact Or.inl (h ▸ List.mem_cons_self _ _)
      · rcases ih h with h2 | h2
        · exact Or.inl (List.mem_cons_of_mem _ h2)
        · exact Or.inr h2

theorem mem_dictUpdate {α β : Type} [DecidableEq α]
    {d upd : List (α × β)} {x : α × β}
    (h : x ∈ dictUpdate d upd) : x ∈ d ∨ x ∈ upd := by
  induction upd generalizing d with
  | nil => exact Or.inl h
  | cons hd tl ih =>
    have h2 : x ∈ dictUpdate (dictInsert d hd.1 hd.2) tl := h
    rcases ih h2 with h3 | h3
    · rcases mem_dictInsert h3 with h4 | h4
      · exact Or.inl h4
      · exact Or.inr (h4 ▸ List.mem_cons_self _ _)
    · exact Or.inr (List.mem_cons_of_mem _ h3)

theorem dictLookup_eq_none_iff {α β : Type} [DecidableEq α]
    (d : List (α × β)) (k : α) :
    dictLookup d k = none ↔ k ∉ d.map Prod.fst := by
  induction d with
  | nil => simp [dictLookup]
  | cons hd tl ih =>
    obtain ⟨a, b⟩ := hd
    by_cases h : a = k
    · simp [dictLookup, h]
    · simp [dictLookup, h, ih, Ne.symm h]

theorem dictContains_eq_false_iff {α β : Type} [DecidableEq α]
    (d : List (α × β)) (k : α) :
    dictContains d k = false ↔ k ∉ d.map Prod.fst := by
  rw [← dictLookup_eq_none_iff]
  unfold dictContains
  cases dictLookup d k <;> simp

theorem dictContains_eq_true_iff {α β : Type} [DecidableEq α]
    (d : List (α × β)) (k : α) :
    dictContains d k = true ↔ k ∈ d.map Prod.fst := by
  constructor
  · intro h
    by_contra hmem
    have hf := (dictContains_eq_false_iff d k).2 hmem
    rw [h] at hf
    cases hf
  · intro hmem
    cases hc : dictContains d k
    · exact absurd hmem ((dictContains_eq_false_iff d k).1 hc)
    · rfl

theorem nodupKeys_dictInsert {α β : Type} [DecidableEq α]
    {d : List (α × β)} (k : α) (v : β) (hnd : nodupKeys d) :
    nodupKeys (dictInsert d k v) := by
  induction d with
  | nil => simp [dictInsert, nodupKeys]
  | cons hd tl ih =>
    obtain ⟨a, b⟩ := hd
    unfold nodupKeys at hnd
    simp only [List.map_cons, List.nodup_cons] at hnd
    by_cases h : a = k
    · subst h
      unfold nodupKeys
      have he : dictInsert ((a, b) :: tl) a v = (a, v) :: tl := by simp [dictInsert]
      rw [he]
      simp only [List.map_cons, List.nodup_cons]
      exact hnd
    · have ih2 := ih hnd.2
      unfold nodupKeys at ih2 ⊢
      simp only [dictInsert, if_neg h, List.map_cons, List.nodup_cons]
      refine ⟨fun hmem => ?_, ih2⟩
      rcases List.mem_map.1 hmem with ⟨x, hx, hfst⟩
      rcases mem_dictInsert hx with h2 | h2
      · exact hnd.1 (List.mem_map.2 ⟨x, h2, hfst⟩)
      · exact h (by rw [h2] at hfst; exact hfst.symm)

theorem dictLookup_of_mem_nodup {α β : Type} [DecidableEq α]
    {d : List (α × β)} {k : α} {v : β}
    (hnd : nodupKeys d) (hmem : (k, v) ∈ d) : dictLookup d k = some v := by
  induction d with
  | nil => cases hmem
  | cons hd tl ih =>
    obtain ⟨a, b⟩ := hd
    unfold nodupKeys at hnd
    simp only [List.map_cons, List.nodup_cons] at hnd
    rcases List.mem_cons.1 hmem with h | h
    · rw [Prod.mk.injEq] at h
      simp [dictLookup, h.1, h.2]
    · by_cases ha : a = k
      · exfalso
        subst ha
        exact hnd.1 (List.mem_map.2 ⟨(a, v), h, rfl⟩)
      · simpa [dictLookup, ha] using ih hnd.2 h

theorem dictLookup_dictUpdate_not_mem {α β : Type} [DecidableEq α]
    {d upd : List (α × β)} {k : α}
    (h : k ∉ upd.map Prod.fst) :
    dictLookup (dictUpdate d upd) k = dictLookup d k := by
  induction upd generalizing d with
  | nil => rfl
  | cons hd tl ih =>
    simp only [List.map_cons, List.mem_cons] at h
    push_neg at h
    have step : dictUpdate d (hd :: tl) = dictUpdate (dictInsert d hd.1 hd.2) tl := rfl
    rw [step, ih h.2, dictLookup_dictInsert_ne]
    exact fun he => h.1 (he ▸ rfl)

theorem dictContains_dictInsert {α β : Type} [DecidableEq α]
    (d : List (α × β)) (a k : α) (b : β) :
    dictContains (dictInsert d a b) k = true ↔ dictContains d k = true ∨ k = a := by
  by_cases h : a = k
  · subst h
    simp [dictContains, dictLookup_dictInsert_self]
  · rw [dictContains, dictContains, dictLookup_dictInsert_ne d a k b h]
    simp [Ne.symm h]

theorem dictContains_dictUpdate {α β : Type} [DecidableEq α]
    (d upd : List (α × β)) (k : α) :
    dictContains (dictUpdate d upd) k = true ↔
      dictContains d k = true ∨ k ∈ upd.map Prod.fst := by
  induction upd generalizing d with
  | nil => simp [dictUpdate]
  | cons hd tl ih =>
    have step : dictUpdate d (hd :: tl) = dictUpdate (dictInsert d hd.1 hd.2) tl := rfl
    rw [step, ih, dictContains_dictInsert]
    simp only [List.map_cons, List.mem_cons]
    tauto

theorem nodupKeys_dictUpdate {α β : Type} [DecidableEq α]
    {d : List (α × β)} (upd : List (α × β)) (hnd : nodupKeys d) :
    nodupKeys (dictUpdate d upd) := by
  induction upd generalizing d with
  | nil => exact hnd
  | cons hd tl ih => exact ih (nodupKeys_dictInsert hd.1 hd.2 hnd)

/-! Lemmas about the inferred-model factory and the descriptor views. -/

theorem from_descriptor_step_base {attrs : List String}
    {cols : List (String × ColumnSpec)} {name : String}
    {f0 : Option DescriptorFieldType} (h : name ∈ attrs) :
    from_descriptor_step attrs cols name f0 = some cols := by
  unfold from_descriptor_step
  rw [if_pos h]

theorem from_descriptor_step_skip_none {attrs : List String}
    {cols : List (String × ColumnSpec)} {name : String}
    (h : name ∉ attrs) :
    from_descriptor_step attrs cols name none = none := by
  unfold from_descriptor_step
  rw [if_neg h]

theorem from_descriptor_step_col {attrs : List String}
    {cols : List (String × ColumnSpec)} {name : String}
    {f : DescriptorFieldType} {c : ColumnSpec}
    (h : name ∉ attrs) (hc : f.as_column = some c) :
    from_descriptor_step attrs cols name (some f) = some (dictInsert cols name c) := by
  unfold from_descriptor_step
  rw [if_neg h]
  simp only [hc]

theorem from_descriptor_step_no_col {attrs : List String}
    {cols : List (String × ColumnSpec)} {name : String}
    {f : DescriptorFieldType}
    (h : name ∉ attrs) (hc : f.as_column = none) :
    from_descriptor_step attrs cols name (some f) = none := by
  unfold from_descriptor_step
  rw [if_neg h]
  simp only [hc]

theorem from_descriptor_step_eq_some {attrs : List String}
    {cols cols2 : List (String × ColumnSpec)} {name : String}
    {f0 : Option DescriptorFieldType}
    (h : from_descriptor_step attrs cols name f0 = some cols2) :
    (name ∈ attrs ∧ cols2 = cols) ∨
    (name ∉ attrs ∧
      ∃ f c, f0 = some f ∧ f.as_column = some c ∧ cols2 = dictInsert cols name c) := by
  by_cases hb : name ∈ attrs
  · rw [from_descriptor_step_base hb] at h
    exact Or.inl ⟨hb, (Option.some.inj h).symm⟩
  · cases f0 with
    | none =>
      rw [from_descriptor_step_skip_none hb] at h
      cases h
    | some f =>
      cases hc : f.as_column with
      | none =>
        rw [from_descriptor_step_no_col hb hc] at h
        cases h
      | some c =>
        rw [from_descriptor_step_col hb hc] at h
        exact Or.inr ⟨hb, f, c, rfl, hc, (Option.some.inj h).symm⟩

theorem from_descriptor_go_lookup_frozen {attrs : List String}
    {props : List (String × Option DescriptorFieldType)}
    {cols res : List (String × ColumnSpec)} {k : String}
    (h : from_descriptor_go attrs props cols = some res)
    (hk : k ∈ attrs ∨ k ∉ props.map Prod.fst) :
    dictLookup res k = dictLookup cols k := by
  induction props generalizing cols with
  | nil =>
    simp only [from_descriptor_go, Option.some.injEq] at h
    rw [h]
  | cons hd tl ih =>
    obtain ⟨name, f0⟩ := hd
    have hk2 : k ∈ attrs ∨ k ∉ tl.map Prod.fst := by
      rcases hk with hk | hk
      · exact Or.inl hk
      · exact Or.inr (fun hm => hk (List.mem_cons_of_mem _ hm))
    cases hstep : from_descriptor_step attrs cols name f0 with
    | none =>
      rw [from_descriptor_go, hstep] at h
      cases h
    | some cols2 =>
      rw [from_descriptor_go, hstep] at h
      rcases from_descriptor_step_eq_some hstep with ⟨_, he⟩ | ⟨hnb, f, c, _, _, he⟩
      · rw [ih h hk2, he]
      · have hne : name ≠ k := by
          rcases hk with hk | hk
          · exact fun heq => hnb (heq ▸ hk)
          · exact fun heq =>
              hk (heq ▸ List.mem_map.2 ⟨(name, f0), List.mem_cons_self _ _, rfl⟩)
        rw [ih h hk2, he, dictLookup_dictInsert_ne _ _ _ _ hne]

theorem from_descriptor_go_lookup_new {attrs : List String}
    {props : List (String × Option DescriptorFieldType)}
    {cols res : List (String × ColumnSpec)} {k : String} {f : DescriptorFieldType}
    (hnd : nodupKeys props)
    (h : from_descriptor_go attrs props cols = some res)
    (hb : k ∉ attrs)
    (hp : dictLookup props k = some (some f)) :
    dictLookup res k = f.as_column := by
  induction props generalizing cols with
  | nil => cases hp
  | cons hd tl ih =>
    obtain ⟨name, f0⟩ := hd
    unfold nodupKeys at hnd
    simp only [List.map_cons, List.nodup_cons] at hnd
    cases hstep : from_descriptor_step attrs cols name f0 with
    | none =>
      rw [from_descriptor_go, hstep] at h
      cases h
    | some cols2 =>
      rw [from_descriptor_go, hstep] at h
      by_cases hname : name = k
      · subst hname
        simp [dictLookup] at hp
        rcases from_descriptor_step_eq_some hstep with ⟨hbm, _⟩ | ⟨_, g, c, hg, hc, he⟩
        · exact absurd hbm hb
        · rw [hp] at hg
          have hgf : g = f := Option.some.inj hg.symm
          subst hgf
          rw [from_descriptor_go_lookup_frozen h (Or.inr hnd.1), he,
            dictLookup_dictInsert_self, hc]
      · simp only [dictLookup, if_neg hname] at hp
        exact ih hnd.2 h hp

theorem from_descriptor_go_entries {attrs : List String}
    {props : List (String × Option DescriptorFieldType)}
    {cols res : List (String × ColumnSpec)}
    (h : from_descriptor_go attrs props cols = some res) :
    ∀ kv ∈ props, kv.1 ∉ attrs →
      ∃ v c, kv.2 = some v ∧ v.as_column = some c := by
  induction props generalizing cols with
  | nil => intro kv hkv; cases hkv
  | cons hd tl ih =>
    obtain ⟨name, f0⟩ := hd
    intro kv hkv hbase
    cases hstep : from_descriptor_step attrs cols name f0 with
    | none =>
      rw [from_descriptor_go, hstep] at h
      cases h
    | some cols2 =>
      rw [from_descriptor_go, hstep] at h
      rcases List.mem_cons.1 hkv with he | hm
      · subst he
        rcases from_descriptor_step_eq_some hstep with ⟨hbm, _⟩ | ⟨_, g, c, hg, hc, _⟩
        · exact absurd hbm hbase
        · exact ⟨g, c, hg, hc⟩
      · exact ih h kv hm hbase

theorem from_descriptor_go_total {attrs : List String}
    {props : List (String × Option DescriptorFieldType)}
    (hgood : ∀ kv ∈ props, kv.1 ∉ attrs →
      ∃ v c, kv.2 = some v ∧ v.as_column = some c) :
    ∀ cols, ∃ res, from_descriptor_go attrs props cols = some res := by
  induction props with
  | nil => exact fun cols => ⟨cols, rfl⟩
  | cons hd tl ih =>
    obtain ⟨name, f0⟩ := hd
    intro cols
    have hgood2 : ∀ kv ∈ tl, kv.1 ∉ attrs →
        ∃ v c, kv.2 = some v ∧ v.as_column = some c :=
      fun kv hm => hgood kv (List.mem_cons_of_mem _ hm)
    by_cases hbn : name ∈ attrs
    · rcases ih hgood2 cols with ⟨res, hres⟩
      refine ⟨res, ?_⟩
      rw [from_descriptor_go, from_descriptor_step_base hbn]
      exact hres
    · rcases hgood (name, f0) (List.mem_cons_self _ _) hbn with ⟨v, c, hv, hc⟩
      have hv2 : f0 = some v := hv
      subst hv2
      rcases ih hgood2 (dictInsert cols name c) with ⟨res, hres⟩
      refine ⟨res, ?_⟩
      rw [from_descriptor_go, from_descriptor_step_col hbn hc]
      exact hres

theorem schema_go_total
    {props : List (String × Option DescriptorFieldType)}
    (hgood : ∀ kv ∈ props, ∃ v, kv.2 = some v) :
    ∃ r, schema_go props = some r := by
  induction props with
  | nil => exact ⟨[], rfl⟩
  | cons hd tl ih =>
    obtain ⟨name, f0⟩ := hd
    rcases hgood (name, f0) (List.mem_cons_self _ _) with ⟨v, hv⟩
    have hv2 : f0 = some v := hv
    subst hv2
    rcases ih (fun kv hm => hgood kv (List.mem_cons_of_mem _ hm)) with ⟨r, hr⟩
    exact ⟨(name, v.as_column) :: r, by simp [schema_go, hr]⟩

/-! Lemmas about drift detection and descriptor construction. -/

theorem new_fields_of_eq_nil_iff {d : DescriptorModel} {obj : List (String × NativeValue)} :
    d.new_fields_of obj = [] ↔ ∀ kv ∈ obj, dictContains d.properties kv.1 = true := by
  unfold DescriptorModel.new_fields_of
  constructor
  · intro h kv hm
    by_cases hc : dictContains d.properties kv.1
    · exact hc
    · exfalso
      have hfil : obj.filter (fun kv => !(dictContains d.properties kv.1)) = [] :=
        List.map_eq_nil_iff.1 h
      have hnp := List.filter_eq_nil_iff.1 hfil kv hm
      rw [Bool.eq_false_iff.2 hc] at hnp
      exact hnp rfl
  · intro h
    have hfil : obj.filter (fun kv => !(dictContains d.properties kv.1)) = [] := by
      rw [List.filter_eq_nil_iff]
      intro kv hm
      simp [h kv hm]
    rw [hfil]
    rfl

theorem mem_new_fields_of {d : DescriptorModel} {obj : List (String × NativeValue)}
    {x : String × Option DescriptorFieldType}
    (h : x ∈ d.new_fields_of obj) :
    ∃ kv ∈ obj, dictContains d.properties kv.1 = false ∧
      x = (kv.1, DescriptorFieldType.from_value kv.2) := by
  unfold DescriptorModel.new_fields_of at h
  rcases List.mem_map.1 h with ⟨kv, hkv, hx⟩
  rcases List.mem_filter.1 hkv with ⟨hmem, hpred⟩
  refine ⟨kv, hmem, ?_, hx.symm⟩
  simpa using hpred

theorem keys_new_fields_subset {d : DescriptorModel} {obj : List (String × NativeValue)}
    {k : String}
    (h : k ∈ (d.new_fields_of obj).map Prod.fst) :
    k ∈ obj.map Prod.fst ∧ dictContains d.properties k = false := by
  rcases List.mem_map.1 h with ⟨x, hx, hk⟩
  rcases mem_new_fields_of hx with ⟨kv, hkv, hc, hxe⟩
  subst hxe
  simp only at hk
  subst hk
  exact ⟨List.mem_map.2 ⟨kv, hkv, rfl⟩, hc⟩

theorem mem_keys_new_fields_of_not_contains {d : DescriptorModel}
    {obj : List (String × NativeValue)} {kv : String × NativeValue}
    (hm : kv ∈ obj) (hc : dictContains d.properties kv.1 = false) :
    kv.1 ∈ (d.new_fields_of obj).map Prod.fst := by
  unfold DescriptorModel.new_fields_of
  refine List.mem_map.2 ⟨(kv.1, DescriptorFieldType.from_value kv.2), ?_, rfl⟩
  exact List.mem_map.2 ⟨kv, List.mem_filter.2 ⟨hm, by simp [hc]⟩, rfl⟩

theorem infer_state_contains {d : DescriptorModel} {obj : List (String × NativeValue)}
    (kv : String × NativeValue) (hm : kv ∈ obj) :
    dictContains (d.infer_state obj).properties kv.1 = true := by
  unfold DescriptorModel.infer_state
  by_cases hemp : (d.new_fields_of obj).isEmpty
  · rw [if_pos hemp]
    have hnil : d.new_fields_of obj = [] := by
      cases hl : d.new_fields_of obj
      · rfl
      · rw [hl] at hemp
        cases hemp
    exact (new_fields_of_eq_nil_iff.1 hnil) kv hm
  · rw [if_neg hemp]
    show dictContains (dictUpdate d.properties (d.new_fields_of obj)) kv.1 = true
    rw [dictContains_dictUpdate]
    by_cases hc : dictContains d.properties kv.1
    · exact Or.inl hc
    · exact Or.inr (mem_keys_new_fields_of_not_contains hm (Bool.eq_false_iff.2 hc))

theorem new_fields_after_infer_state (d : DescriptorModel)
    (obj : List (String × NativeValue)) :
    (d.infer_state obj).new_fields_of obj = [] :=
  new_fields_of_eq_nil_iff.2 (fun kv hm => infer_state_contains kv hm)

theorem infer_schema_change_no_new {d : DescriptorModel} {obj : List (String × NativeValue)}
    (hall : ∀ kv ∈ obj, dictContains d.properties kv.1 = true) :
    d.infer_schema_change obj = some (none, d, []) := by
  have hnil : d.new_fields_of obj = [] := new_fields_of_eq_nil_iff.2 hall
  unfold DescriptorModel.infer_schema_change
  rw [if_pos (by rw [hnil]; rfl)]

theorem infer_schema_change_state {d d2 : DescriptorModel} {obj : List (String × NativeValue)}
    {r : Option (List (String × Option DescriptorFieldType))} {effs : List Effect}
    (h : d.infer_schema_change obj = some (r, d2, effs)) :
    d2 = d.infer_state obj := by
  unfold DescriptorModel.infer_schema_change at h
  by_cases hemp : (d.new_fields_of obj).isEmpty
  · rw [if_pos hemp] at h
    have h2 := Option.some.inj h
    rw [Prod.mk.injEq, Prod.mk.injEq] at h2
    unfold DescriptorModel.infer_state
    rw [if_pos hemp]
    exact h2.2.1.symm
  · rw [if_neg hemp] at h
    cases hsave : (d.infer_state obj).save with
    | none =>
      rw [hsave] at h
      cases h
    | some effs0 =>
      rw [hsave] at h
      cases hmod : (d.infer_state obj).model with
      | none =>
        rw [hmod] at h
        cases h
      | some cols =>
        rw [hmod] at h
        have h2 := Option.some.inj h
        rw [Prod.mk.injEq, Prod.mk.injEq] at h2
        exact h2.2.1.symm

theorem create_eq_some {id0 : String} {props : List (String × Option DescriptorFieldType)}
    {d : DescriptorModel} {effs : List Effect}
    (h : DescriptorModel.create id0 props = some (d, effs)) :
    d = DescriptorModel.createdOf id0 props ∧
    InferredModel.from_descriptor d.properties ≠ none := by
  unfold DescriptorModel.create at h
  cases hsave : (DescriptorModel.createdOf id0 props).save with
  | none =>
    rw [hsave] at h
    cases h
  | some effs0 =>
    rw [hsave] at h
    cases hmod : (DescriptorModel.createdOf id0 props).model with
    | none =>
      rw [hmod] at h
      cases h
    | some cols =>
      rw [hmod] at h
      have h2 := Option.some.inj h
      rw [Prod.mk.injEq] at h2
      refine ⟨h2.1.symm, ?_⟩
      rw [h2.1.symm]
      unfold DescriptorModel.model at hmod
      rw [hmod]
      exact fun he => Option.noConfusion he

theorem set_default_lookup_id (d : DescriptorModel) :
    dictLookup d.set_default_properties.properties "id" = some (some defaultIdField) := by
  unfold DescriptorModel.set_default_properties
  show dictLookup
    (dictInsert (dictInsert d.properties "id" (some defaultIdField))
      "last_modified" (some defaultLastModifiedField)) "id" = some (some defaultIdField)
  rw [dictLookup_dictInsert_ne _ _ _ _ (by decide), dictLookup_dictInsert_self]

theorem set_default_lookup_last_modified (d : DescriptorModel) :
    dictLookup d.set_default_properties.properties "last_modified" =
      some (some defaultLastModifiedField) := by
  unfold DescriptorModel.set_default_properties
  show dictLookup
    (dictInsert (dictInsert d.properties "id" (some defaultIdField))
      "last_modified" (some defaultLastModifiedField)) "last_modified" =
    some (some defaultLastModifiedField)
  rw [dictLookup_dictInsert_self]

theorem set_default_nodup {d : DescriptorModel} (hnd : nodupKeys d.properties) :
    nodupKeys d.set_default_properties.properties := by
  unfold DescriptorModel.set_default_properties
  exact nodupKeys_dictUpdate _ hnd

theorem mem_set_default {d : DescriptorModel} {x : String × Option DescriptorFieldType}
    (h : x ∈ d.set_default_properties.properties) :
    x ∈ d.properties ∨ x = ("id", some defaultIdField) ∨
      x = ("last_modified", some defaultLastModifiedField) := by
  unfold DescriptorModel.set_default_properties at h
  rcases mem_dictUpdate h with h2 | h2
  · exact Or.inl h2
  · simp only [List.mem_cons, List.mem_singleton] at h2
    rcases h2 with h2 | h2 | h2
    · exact Or.inr (Or.inl h2)
    · exact Or.inr (Or.inr h2)
    · cases h2

/-- `from_value` of a supported value yields a field whose column
resolution is defined. -/
theorem from_value_supported {v : NativeValue} (h : isSupported v = true) :
    ∃ f c, DescriptorFieldType.from_value v = some f ∧ f.as_column = some c := by
  cases v with
  | vBool b => exact ⟨_, _, rfl, rfl⟩
  | vInt n => exact ⟨_, _, rfl, rfl⟩
  | vFloat => exact ⟨_, _, rfl, rfl⟩
  | vStr s => exact ⟨_, _, rfl, rfl⟩
  | vDict => exact ⟨_, _, rfl, rfl⟩
  | vList => exact ⟨_, _, rfl, rfl⟩
  | vNone => cases h

/-! Concrete fixtures used by witnesses and counterexamples. -/

/-- The descriptor produced by `create("t", {})` (Scenario A). -/
def dSeed : DescriptorModel :=
  ⟨"t", [("id", some defaultIdField), ("last_modified", some defaultLastModifiedField)]⟩

/-- The in-memory descriptor after inferring over `{'x': None}`. -/
def dStar : DescriptorModel :=
  dSeed.infer_state [("x", NativeValue.vNone)]

/-- A caller payload that tries to override the `id` default field. -/
def callerProps : List (String × Option DescriptorFieldType) :=
  [("id", some { type := "integer" }), ("extra", some { type := "boolean" })]

/-- A truthy-attribute set for the factory witness: the two declared
columns, the two classmethods declared in the source class body, and
two of the methods inherited from cqlengine's `Model`. -/
def attrsW : List String :=
  ["id", "last_modified", "add_column", "from_descriptor", "save", "delete"]

def propsW : List (String × Option DescriptorFieldType) :=
  [("foo", some { type := "integer" }),
   ("id", some { type := "integer", primary_key := true }),
   ("save", some { type := "boolean" })]

def colsW : List (String × ColumnSpec) :=
  [("id", idColumn), ("last_modified", lastModifiedColumn),
   ("foo", ⟨.bigint, false, false, true, false, false⟩)]

/-! Claim theorems. -/

/-- C1: for every id and caller-supplied field mapping (including ones
defining their own `id` or `last_modified`), the descriptor returned by
`create` maps `id` to the injected default (kind string, primary key,
partition key) and `last_modified` to the injected default (kind string,
format date-time, indexed), exactly. -/
theorem create_injects_default_fields
    (id0 : String) (props : List (String × Option DescriptorFieldType))
    (d : DescriptorModel) (effs : List Effect)
    (h : DescriptorModel.create id0 props = some (d, effs)) :
    dictLookup d.properties "id" =
      some (some { type := "string", format := "", primary_key := true,
                   partition_key := true, required := false, index := true }) ∧
    dictLookup d.properties "last_modified" =
      some (some { type := "string", format := "date-time", primary_key := false,
                   partition_key := false, required := false, index := true }) := by
  rcases create_eq_some h with ⟨hd, _⟩
  subst hd
  unfold DescriptorModel.createdOf
  exact ⟨set_default_lookup_id _, set_default_lookup_last_modified _⟩

/-- Witness for C1 at a payload that supplies its own `id` field. -/
theorem create_injects_default_fields_witness :
    dictLookup (DescriptorModel.createdOf "t2" callerProps).properties "id" =
      some (some { type := "string", format := "", primary_key := true,
                   partition_key := true, required := false, index := true }) ∧
    dictLookup (DescriptorModel.createdOf "t2" callerProps).properties "last_modified" =
      some (some { type := "string", format := "date-time", primary_key := false,
                   partition_key := false, required := false, index := true }) :=
  create_injects_default_fields "t2" callerProps
    (DescriptorModel.createdOf "t2" callerProps)
    [.syncTable, .save, .syncTable] rfl

/-- The composed (type, format)-to-column mapping the tables declare for
a native type: native table lookup, then CQL table lookup with the text
default. -/
def declaredColumnKind (t : PyType) : ColumnKind :=
  match dictLookup NATIVE_JSONSCHEMA_TYPE_MAPPER t with
  | none => DEFAULT_CQL_TYPE
  | some pair =>
    match dictLookup JSONSCHEMA_CQL_TYPE_MAPPER pair with
    | none => DEFAULT_CQL_TYPE
    | some (.col k) => k
    | some .nullCol => DEFAULT_CQL_TYPE
    | some .mapCol => .mapDescriptor

/-- C2: for every supported native value, `from_value` then `as_column`
yields a column whose kind is the one the mapping tables declare for the
value's native type (string to text, integer to big-integer, number to
decimal, ...), the empty-string format encoding notwithstanding. -/
theorem from_value_as_column_matches_tables :
    (∀ (v : NativeValue) (t : PyType), typeOf v = some t →
      ∃ f c, DescriptorFieldType.from_value v = some f ∧
        f.as_column = some c ∧ c.kind = declaredColumnKind t) ∧
    declaredColumnKind .pyStr = .text ∧
    declaredColumnKind .pyInt = .bigint ∧
    declaredColumnKind .pyFloat = .decimal := by
  refine ⟨?_, rfl, rfl, rfl⟩
  intro v t ht
  cases v with
  | vBool b => cases ht; exact ⟨_, _, rfl, rfl, rfl⟩
  | vInt n => cases ht; exact ⟨_, _, rfl, rfl, rfl⟩
  | vFloat => cases ht; exact ⟨_, _, rfl, rfl, rfl⟩
  | vStr s => cases ht; exact ⟨_, _, rfl, rfl, rfl⟩
  | vDict => cases ht; exact ⟨_, _, rfl, rfl, rfl⟩
  | vList => cases ht; exact ⟨_, _, rfl, rfl, rfl⟩
  | vNone => cases ht

/-- Witness for C2 at the string value `"a"`. -/
theorem from_value_as_column_matches_tables_witness :
    ∃ f c, DescriptorFieldType.from_value (.vStr "a") = some f ∧
      f.as_column = some c ∧ c.kind = declaredColumnKind .pyStr :=
  from_value_as_column_matches_tables.1 (.vStr "a") .pyStr rfl

/-- C5: the reverse table built by
`{v: k for v, k in JSONSCHEMA_CQL_TYPE_MAPPER}` is NOT the inverse of
the forward table: iterating the forward dict yields its keys, so the
comprehension unpacks each (kind, format) key and produces a
kind-to-format map (with later entries overwriting earlier ones), which
contains no column specification at all. -/
theorem cql_jsonschema_mapper_not_inverse :
    CQL_JSONSCHEMA_TYPE_MAPPER =
      [("string", some "uuid"), ("number", some "double"), ("integer", none),
       ("boolean", none), ("null", none), ("object", some "descriptor")] ∧
    CQL_JSONSCHEMA_TYPE_MAPPER.length = 6 ∧
    JSONSCHEMA_CQL_TYPE_MAPPER.length = 10 :=
  ⟨rfl, rfl, rfl⟩

/-- C6: booleans are instances of the native integer type as well, yet
`from_value` classifies them as kind `boolean`, never `integer`, because
the native table lists `bool` before `int` and the first match wins. -/
theorem from_value_bool_is_boolean :
    ∀ b : Bool, isinstance (.vBool b) .pyInt = true ∧
      DescriptorFieldType.from_value (.vBool b) =
        some { type := "boolean", format := "", primary_key := false,
               partition_key := false, required := false, index := true } ∧
      (DescriptorFieldType.from_value (.vBool b)).map DescriptorFieldType.type ≠
        some "integer" := by
  intro b
  refine ⟨rfl, rfl, ?_⟩
  cases b <;> decide

/-- C7: a (kind, format) pair with no exact entry in the CQL mapper
resolves to the default text column carrying the field's flags, instead
of failing. -/
theorem as_column_falls_back_to_text (f : DescriptorFieldType)
    (h : dictLookup JSONSCHEMA_CQL_TYPE_MAPPER
        (f.type, if f.format = "" then none else some f.format) = none) :
    f.as_column =
      some { kind := DEFAULT_CQL_TYPE, primary_key := f.primary_key,
             partition_key := f.partition_key, index := f.index,
             required := f.required, hasDefault := false } := by
  show applyCtor
      ((dictLookup JSONSCHEMA_CQL_TYPE_MAPPER
        (f.type, if f.format = "" then none else some f.format)).getD
          (.col DEFAULT_CQL_TYPE))
      f.primary_key f.partition_key f.index f.required =
    some { kind := DEFAULT_CQL_TYPE, primary_key := f.primary_key,
           partition_key := f.partition_key, index := f.index,
           required := f.required, hasDefault := false }
  rw [h]
  rfl

/-- Witness for C7 at the known kind `string` with an unrecognized
format. -/
theorem as_column_falls_back_to_text_witness :
    (⟨"string", "weird", true, false, false, true⟩ : DescriptorFieldType).as_column =
      some ⟨DEFAULT_CQL_TYPE, true, false, true, false, false⟩ :=
  as_column_falls_back_to_text ⟨"string", "weird", true, false, false, true⟩ (by decide)

/-- C3: when every key of the object is already a property,
`infer_schema_change` returns nothing, does not change the descriptor
and issues no persistence or migration effect; consequently a second
call with the same object after any successful call returns nothing. -/
theorem infer_schema_change_idempotent :
    (∀ (d : DescriptorModel) (obj : List (String × NativeValue)),
      (∀ kv ∈ obj, dictContains d.properties kv.1 = true) →
        d.infer_schema_change obj = some (none, d, [])) ∧
    (∀ (d d2 : DescriptorModel) (obj : List (String × NativeValue))
      (r : Option (List (String × Option DescriptorFieldType))) (effs : List Effect),
      d.infer_schema_change obj = some (r, d2, effs) →
        d2.infer_schema_change obj = some (none, d2, [])) := by
  refine ⟨fun d obj hall => infer_schema_change_no_new hall, ?_⟩
  intro d d2 obj r effs h
  have hd2 := infer_schema_change_state h
  subst hd2
  exact infer_schema_change_no_new (fun kv hm => infer_state_contains kv hm)

/-- Witness for C3: an already-known key is a no-op, and Scenario B/C
(`{'foo': 'bar'}` twice) drifts once then reports no drift. -/
theorem infer_schema_change_idempotent_witness :
    dSeed.infer_schema_change [("id", NativeValue.vInt 1)] = some (none, dSeed, []) ∧
    (dSeed.infer_state [("foo", NativeValue.vStr "bar")]).infer_schema_change
        [("foo", NativeValue.vStr "bar")] =
      some (none, dSeed.infer_state [("foo", NativeValue.vStr "bar")], []) :=
  ⟨infer_schema_change_idempotent.1 dSeed [("id", NativeValue.vInt 1)] (by decide),
   infer_schema_change_idempotent.2 dSeed
     (dSeed.infer_state [("foo", NativeValue.vStr "bar")])
     [("foo", NativeValue.vStr "bar")]
     (some [("foo", some { type := "string", format := "" })])
     [.syncTable, .save, .syncTable] rfl⟩

/-- C4 (code bug): on an unclassifiable value (`None`), `from_value`
does return nothing, but `infer_schema_change` still inserts the key —
mapped to Python `None` — into `properties`, and the subsequent
`save()` raises `AttributeError` while synthesizing `self.model`
(`None.as_column`), instead of skipping the field and completing. -/
theorem infer_unclassifiable_adds_null_and_raises :
    DescriptorFieldType.from_value .vNone = none ∧
    dSeed.infer_schema_change [("x", NativeValue.vNone)] = none ∧
    dictLookup (dSeed.infer_state [("x", NativeValue.vNone)]).properties "x" =
      some none :=
  ⟨rfl, rfl, rfl⟩

/-- C8: for every truthy-attribute set of the base record type — any
set containing the statically declared `id` and `last_modified`
columns; the source class's actual set further holds its classmethods
(`add_column`, `from_descriptor`) and everything inherited from
cqlengine's `Model` (`save`, `delete`, ...) — the synthesized column
set keeps the base `id` and `last_modified` column declarations, never
adds a column for (and ignores the descriptor's entry under) ANY base
attribute name, and turns every other descriptor field into the column
its field descriptor resolves to.  `InferredModel.from_descriptor` is
the `baseAttrs` instantiation of this factory. -/
theorem from_descriptor_base_fields_win
    (attrs : List String)
    (props : List (String × Option DescriptorFieldType))
    (cols : List (String × ColumnSpec))
    (hid : "id" ∈ attrs) (hlm : "last_modified" ∈ attrs)
    (hnd : nodupKeys props)
    (h : from_descriptor_go attrs props baseColumns = some cols) :
    dictLookup cols "id" = some idColumn ∧
    dictLookup cols "last_modified" = some lastModifiedColumn ∧
    (∀ name : String, name ∈ attrs →
      dictLookup cols name = dictLookup baseColumns name) ∧
    (∀ (name : String) (f : DescriptorFieldType), name ∉ attrs →
      dictLookup props name = some (some f) →
      dictLookup cols name = f.as_column) := by
  refine ⟨?_, ?_, ?_, ?_⟩
  · rw [from_descriptor_go_lookup_frozen h (Or.inl hid)]
    rfl
  · rw [from_descriptor_go_lookup_frozen h (Or.inl hlm)]
    rfl
  · intro name hname
    exact from_descriptor_go_lookup_frozen h (Or.inl hname)
  · intro name f hb hp
    exact from_descriptor_go_lookup_new hnd h hb hp

/-- Witness for C8: with an attribute set holding the two columns, the
classmethods and inherited method names, a descriptor with fields
`foo`, `id` and `save` keeps the base `id` column, adds no column for
the method-named `save` field, and adds a big-integer `foo`. -/
theorem from_descriptor_base_fields_win_witness :
    dictLookup colsW "id" = some idColumn ∧
    dictLookup colsW "save" = dictLookup baseColumns "save" ∧
    dictLookup colsW "foo" =
      ({ type := "integer" } : DescriptorFieldType).as_column := by
  have h := from_descriptor_base_fields_win attrsW propsW colsW (by decide) (by decide)
    (by decide) rfl
  exact ⟨h.1, h.2.2.1 "save" (by decide),
    h.2.2.2 "foo" { type := "integer" } (by decide) rfl⟩

/-- C9: `infer_schema_change` is additive-only: every property present
before a successful call is unchanged after it, and every property
present after was present before or is named by a key of the object. -/
theorem infer_schema_change_additive_only
    (d d2 : DescriptorModel) (obj : List (String × NativeValue))
    (r : Option (List (String × Option DescriptorFieldType))) (effs : List Effect)
    (h : d.infer_schema_change obj = some (r, d2, effs)) :
    (∀ (k : String) (f : Option DescriptorFieldType),
      dictLookup d.properties k = some f → dictLookup d2.properties k = some f) ∧
    (∀ k : String, dictContains d2.properties k = true →
      dictContains d.properties k = true ∨ k ∈ obj.map Prod.fst) := by
  have hd2 := infer_schema_change_state h
  subst hd2
  unfold DescriptorModel.infer_state
  by_cases hemp : (d.new_fields_of obj).isEmpty
  · rw [if_pos hemp]
    exact ⟨fun k f hf => hf, fun k hc => Or.inl hc⟩
  · rw [if_neg hemp]
    constructor
    · intro k f hf
      show dictLookup (dictUpdate d.properties (d.new_fields_of obj)) k = some f
      rw [dictLookup_dictUpdate_not_mem]
      · exact hf
      · intro hk
        rcases keys_new_fields_subset hk with ⟨_, hcf⟩
        rw [dictContains, hf] at hcf
        cases hcf
    · intro k hc
      have hc2 : dictContains (dictUpdate d.properties (d.new_fields_of obj)) k = true := hc
      rcases (dictContains_dictUpdate _ _ _).1 hc2 with h2 | h2
      · exact Or.inl h2
      · exact Or.inr (keys_new_fields_subset h2).1

/-- Witness for C9: after inferring `{'foo': 'bar'}` the pre-existing
`id` property is unchanged. -/
theorem infer_schema_change_additive_only_witness :
    dictLookup (dSeed.infer_state [("foo", NativeValue.vStr "bar")]).properties "id" =
      some (some defaultIdField) :=
  (infer_schema_change_additive_only dSeed
    (dSeed.infer_state [("foo", NativeValue.vStr "bar")])
    [("foo", NativeValue.vStr "bar")]
    (some [("foo", some { type := "string", format := "" })])
    [.syncTable, .save, .syncTable] rfl).1 "id" (some defaultIdField) rfl

/-- Invariant: along `create` and drift steps over supported values,
every stored property is a real field descriptor with a defined column
resolution, and the properties dict has no duplicate keys. -/
theorem reachable_inv {d : DescriptorModel}
    (h : ReachableVia (fun obj => ∀ kv ∈ obj, isSupported kv.2 = true) d) :
    (∀ kv ∈ d.properties, ∃ v c, kv.2 = some v ∧
      DescriptorFieldType.as_column v = some c) ∧
    nodupKeys d.properties := by
  induction h with
  | created id0 props d0 effs hnd hcr =>
    rcases create_eq_some hcr with ⟨hd, hmod⟩
    subst hd
    have hndc : nodupKeys (DescriptorModel.createdOf id0 props).properties := by
      unfold DescriptorModel.createdOf
      exact set_default_nodup (set_default_nodup hnd)
    refine ⟨?_, hndc⟩
    intro kv hm
    by_cases hb : kv.1 ∈ baseAttrs
    · have hlook : dictLookup (DescriptorModel.createdOf id0 props).properties kv.1 =
          some kv.2 := by
        obtain ⟨k, v⟩ := kv
        exact dictLookup_of_mem_nodup hndc hm
      have hbcases : kv.1 = "id" ∨ kv.1 = "last_modified" := by
        simpa [baseAttrs] using hb
      rcases hbcases with hk | hk
      · rw [hk] at hlook
        have hdef : dictLookup (DescriptorModel.createdOf id0 props).properties "id" =
            some (some defaultIdField) := set_default_lookup_id _
        have hv : kv.2 = some defaultIdField :=
          Option.some.inj (hlook.symm.trans hdef)
        exact ⟨defaultIdField, ⟨.text, true, true, true, false, false⟩, hv, rfl⟩
      · rw [hk] at hlook
        have hdef : dictLookup
            (DescriptorModel.createdOf id0 props).properties "last_modified" =
            some (some defaultLastModifiedField) := set_default_lookup_last_modified _
        have hv : kv.2 = some defaultLastModifiedField :=
          Option.some.inj (hlook.symm.trans hdef)
        exact ⟨defaultLastModifiedField, ⟨.datetime, false, false, true, false, false⟩,
          hv, rfl⟩
    · cases hcase : InferredModel.from_descriptor
          (DescriptorModel.createdOf id0 props).properties with
      | none => exact absurd hcase hmod
      | some cols =>
        unfold InferredModel.from_descriptor at hcase
        exact from_descriptor_go_entries hcase kv hm hb
  | inferred d0 obj hP hre ih =>
    unfold DescriptorModel.infer_state
    by_cases hemp : (d0.new_fields_of obj).isEmpty
    · rw [if_pos hemp]
      exact ih
    · rw [if_neg hemp]
      refine ⟨?_, nodupKeys_dictUpdate _ ih.2⟩
      intro kv hm
      have hm2 : kv ∈ dictUpdate d0.properties (d0.new_fields_of obj) := hm
      rcases mem_dictUpdate hm2 with h2 | h2
      · exact ih.1 kv h2
      · rcases mem_new_fields_of h2 with ⟨kv0, hkv0, _, hx⟩
        rcases from_value_supported (hP kv0 hkv0) with ⟨f, c, hf, hc⟩
        refine ⟨f, c, ?_, hc⟩
        rw [hx]
        exact hf

/-- C10 (amended): for every descriptor reachable by `create` followed
by `infer_schema_change` steps on objects all of whose values are
supported, every stored property is a well-formed field descriptor with
a defined column resolution, and the `schema` and `model` views never
raise. -/
theorem reachable_supported_views_total
    (d : DescriptorModel)
    (h : ReachableVia (fun obj => ∀ kv ∈ obj, isSupported kv.2 = true) d) :
    (∀ kv ∈ d.properties, ∃ v c, kv.2 = some v ∧
      DescriptorFieldType.as_column v = some c) ∧
    d.schema ≠ none ∧
    InferredModel.from_descriptor d.properties ≠ none := by
  have hinv := reachable_inv h
  refine ⟨hinv.1, ?_, ?_⟩
  · have hgood : ∀ kv ∈ d.properties, ∃ v, kv.2 = some v := by
      intro kv hm
      rcases hinv.1 kv hm with ⟨v, c, hv, _⟩
      exact ⟨v, hv⟩
    rcases schema_go_total hgood with ⟨r, hr⟩
    unfold DescriptorModel.schema
    rw [hr]
    exact fun he => Option.noConfusion he
  · have hgood2 : ∀ kv ∈ d.properties, kv.1 ∉ baseAttrs →
        ∃ v c, kv.2 = some v ∧ v.as_column = some c :=
      fun kv hm _ => hinv.1 kv hm
    rcases from_descriptor_go_total hgood2 baseColumns with ⟨res, hres⟩
    unfold InferredModel.from_descriptor
    rw [hres]
    exact fun he => Option.noConfusion he

/-- Counterexample to C10 as stated: the state reached by
`create("t", {})` then `infer_schema_change({'x': None})` (the in-memory
mutation the source performs before `save` raises) stores a null entry
under `'x'`, and evaluating `schema` on it raises. -/
theorem reachable_schema_raises :
    ReachableVia (fun _ => True) dStar ∧
    dictLookup dStar.properties "x" = some none ∧
    dStar.schema = none :=
  ⟨ReachableVia.inferred dSeed [("x", NativeValue.vNone)] trivial
    (ReachableVia.created "t" [] dSeed [.syncTable, .save, .syncTable] (by decide) rfl),
   rfl, rfl⟩

/-- Witness for the amended C10 at the descriptor of `create("t", {})`. -/
theorem reachable_supported_views_total_witness :
    dSeed.schema ≠ none :=
  (reachable_supported_views_total dSeed
    (ReachableVia.created "t" [] dSeed [.syncTable, .save, .syncTable]
      (by decide) rfl)).2.1

end Moisturizer
